import Mathlib

/-!
Verification of the configster configuration-file parser (src/lib.rs).

Shallow embedding conventions:
* Rust `&str` / `String` values are modelled as `List Char` (Rust strings are
  sequences of Unicode scalar values; every slicing operation performed by the
  source happens at a character boundary except the one noted below).
* `str::trim` and `char::is_whitespace` use the Unicode `White_Space`
  property, modelled exactly by `rustIsWhitespace`.
* `parse_line` can panic: `value[i.unwrap() + 1..]` adds 1 to the *byte*
  index of the first occurrence of the attribute delimiter.  When the
  delimiter's UTF-8 encoding is longer than one byte, `i + 1` is not a
  character boundary and the slice panics.  The model therefore returns
  `Option _`, with `none` standing for the panic.  All other byte-level
  operations of the source (`line.find('=')`, `line[..i]`, `line[i+1..]`,
  `line.as_bytes()[0] == b'#'`) coincide with their character-level
  counterparts because `'='` and `'#'` are one-byte characters and a
  multi-byte first character starts with a byte ≥ 0xC2 ≠ 0x23.
* `parse_file` performs I/O: it is modelled as a function of the outcome of
  opening the file (`Except IOError`) holding the outcomes of the successive
  line reads (`List (Except IOError (List Char))`), exactly mirroring how the
  `?` operator propagates `File::open` and `line?` failures.
-/

/-- Abstract model of `std::io::Error`: only identity matters here. -/
abbrev IOError := Nat

/-- Rust `char::is_whitespace`: the Unicode `White_Space` property
(U+0009–U+000D, U+0020, U+0085, U+00A0, U+1680, U+2000–U+200A, U+2028,
U+2029, U+202F, U+205F, U+3000). -/
def rustIsWhitespace (c : Char) : Bool :=
  (0x09 ≤ c.toNat && c.toNat ≤ 0x0D) || c.toNat = 0x20 || c.toNat = 0x85 ||
  c.toNat = 0xA0 || c.toNat = 0x1680 ||
  (0x2000 ≤ c.toNat && c.toNat ≤ 0x200A) || c.toNat = 0x2028 ||
  c.toNat = 0x2029 || c.toNat = 0x202F || c.toNat = 0x205F || c.toNat = 0x3000

/-- Remove leading Rust whitespace (the first half of `str::trim`). -/
def trimLeft (l : List Char) : List Char :=
  l.dropWhile rustIsWhitespace

/-- Remove trailing Rust whitespace (the second half of `str::trim`). -/
def trimRight (l : List Char) : List Char :=
  (l.reverse.dropWhile rustIsWhitespace).reverse

/-- Rust `str::trim`: strip Unicode whitespace from both ends. -/
def trim (l : List Char) : List Char :=
  trimRight (trimLeft l)

/-- Rust `str::find(c)` followed by slicing `[..i]` / `[i+1..]`: split a
string at the first occurrence of `c`, returning the text before and after
it, or `none` when `c` does not occur. -/
def splitFirst (c : Char) : List Char → Option (List Char × List Char)
  | [] => none
  | a :: rest =>
    if a = c then some ([], rest)
    else (splitFirst c rest).map (fun p => (a :: p.1, p.2))

/-- Rust `str::split(c)`: split on every occurrence of `c`, keeping empty
tokens; the empty string yields one empty token. -/
def splitOnChar (c : Char) : List Char → List (List Char)
  | [] => [[]]
  | a :: rest =>
    if a = c then [] :: splitOnChar c rest
    else
      match splitOnChar c rest with
      | t :: ts => (a :: t) :: ts
      | [] => [[a]]

/-- Decimal rendering of a `usize`, as produced by Rust's `Display`
implementation (used by `format!("{}", ln)`); the fuel argument makes the
recursion structural. -/
def natReprCore (fuel : Nat) (n : Nat) (acc : List Char) : List Char :=
  match fuel with
  | 0 => acc
  | fuel + 1 =>
    if n < 10 then Nat.digitChar (n % 10) :: acc
    else natReprCore fuel (n / 10) (Nat.digitChar (n % 10) :: acc)

/-- Decimal rendering of a line number, as in `format!("{}", ln)`. -/
def natRepr (n : Nat) : List Char :=
  natReprCore (n + 1) n []

/-- The sentinel option name `format!("{}_on_Line{}", "InvalidOption", ln)`
built by `parse_line` for a key containing whitespace. -/
def invalidOption (ln : Nat) : List Char :=
  "InvalidOption_on_Line".toList ++ natRepr ln

/-- The second half of `parse_line`, from the whitespace-validity check on:
`option` and `value` are the two strings computed from the first `=` (the
source binds them by one `match` and this stage never re-inspects the line).
Returns `none` exactly when the Rust code panics: `value[i.unwrap() + 1..]`
slices one byte past the start of the first delimiter occurrence, which is
not a character boundary when the delimiter's UTF-8 encoding is longer than
one byte. -/
def parseOptVal (option value : List Char) (attr_delimit_char : Char) (ln : Nat) :
    Option (List Char × List Char × List (List Char)) :=
  if option.any rustIsWhitespace then
    some (invalidOption ln, [], [])
  else
    match splitFirst attr_delimit_char value with
    | some q =>
      if attr_delimit_char.utf8Size = 1 then
        some (option, trim q.1, (splitOnChar attr_delimit_char q.2).map trim)
      else
        none
    | none => some (option, value, [])

/-- Model of `parse_line(l, attr_delimit_char, ln)` from src/lib.rs.
Returns `none` exactly when the Rust function panics (multi-byte delimiter
found in the value, see the header comment); otherwise `some` of the
returned triple `(option, primary_value, attr_vec)`.  The source's
`line.is_empty() || line.as_bytes()[0] == b'#'` is rendered as two nested
conditions, mirroring the short-circuit evaluation. -/
def parse_line (l : List Char) (attr_delimit_char : Char) (ln : Nat) :
    Option (List Char × List Char × List (List Char)) :=
  if trim l = [] then
    some ([], [], [])
  else if (trim l).head? = some '#' then
    some ([], [], [])
  else
    match splitFirst '=' (trim l) with
    | some q => parseOptVal (trim q.1) (trim q.2) attr_delimit_char ln
    | none => parseOptVal (trim l) [] attr_delimit_char ln

/-- Model of the record type `OptionProperties.value : Value`. -/
structure Value where
  primary : List Char
  attributes : List (List Char)
deriving DecidableEq

/-- Model of the record type `OptionProperties`. -/
structure OptionProperties where
  option : List Char
  value : Value
deriving DecidableEq

/-- Model of `OptionProperties::new`. -/
def OptionProperties.new (option primary : List Char)
    (attributes : List (List Char)) : OptionProperties :=
  { option := option, value := { primary := primary, attributes := attributes } }

/-- The loop body of `parse_file`: successive line-read outcomes are consumed
with the current 1-based line number; a read error propagates via `?`
(discarding the records accumulated so far), a `parse_line` panic aborts
(`none`), and records with a non-empty option are appended in order. -/
def processLines (d : Char) :
    List (Except IOError (List Char)) → Nat →
    Option (Except IOError (List OptionProperties))
  | [], _ => some (Except.ok [])
  | Except.error e :: _, _ => some (Except.error e)
  | Except.ok l :: rest, n =>
    match parse_line l d n with
    | none => none
    | some (o, pv, av) =>
      match processLines d rest (n + 1) with
      | none => none
      | some (Except.error e) => some (Except.error e)
      | some (Except.ok recs) =>
        some (Except.ok (if o = [] then recs else OptionProperties.new o pv av :: recs))

/-- Model of `parse_file(filename, attr_delimit_char)`: the `input` argument
is the outcome of `File::open` (and, on success, of the successive
`reader.lines()` reads). `none` models a panic, `some` the `io::Result`. -/
def parse_file (input : Except IOError (List (Except IOError (List Char))))
    (attr_delimit_char : Char) :
    Option (Except IOError (List OptionProperties)) :=
  match input with
  | Except.error e => some (Except.error e)
  | Except.ok lines => processLines attr_delimit_char lines 1

/-- The key portion of a line, as described by the specification: the text
before the line's first `=` (trimmed), or the whole trimmed line when there
is no `=`. -/
def keyPortion (l : List Char) : List Char :=
  match splitFirst '=' (trim l) with
  | some q => trim q.1
  | none => trim l

/-- Modelled from the spec (§4.2): the aggregator's output described
declaratively — every line paired with its line number (counting from `k`),
parsed, and kept exactly when the parser returns a non-empty option, in
file order. -/
def recordsSpecFrom (d : Char) (k : Nat) (lines : List (List Char)) :
    List OptionProperties :=
  (List.enumFrom k lines).filterMap (fun p =>
    (parse_line p.2 d p.1).bind (fun t =>
      if t.1 = [] then none else some (OptionProperties.new t.1 t.2.1 t.2.2)))

/-- Modelled from the spec (§4.2): the aggregator's output described
declaratively with 1-based line numbers counting every line of the file. -/
def recordsSpec (d : Char) (lines : List (List Char)) : List OptionProperties :=
  recordsSpecFrom d 1 lines

/-- Well-formedness of an emitted option name: non-empty and free of
whitespace (spec §3 invariants). -/
def optionWf (o : List Char) : Bool :=
  !o.isEmpty && o.all (fun c => !rustIsWhitespace c)

/-! Basic facts about trimming and splitting. -/

theorem dropWhile_append_not (c : Char) (hc : rustIsWhitespace c = false)
    (X Y : List Char) :
    List.dropWhile rustIsWhitespace (X ++ c :: Y) =
      List.dropWhile rustIsWhitespace X ++ c :: Y := by
  induction X with
  | nil => simp [List.dropWhile_cons, hc]
  | cons a X' ih =>
    simp only [List.cons_append, List.dropWhile_cons]
    by_cases ha : rustIsWhitespace a <;> simp [ha, ih]

theorem trimLeft_cons (a : Char) (t : List Char) :
    trimLeft (a :: t) = if rustIsWhitespace a then trimLeft t else a :: t := by
  simp [trimLeft, List.dropWhile_cons]

theorem trimLeft_append_cons (c : Char) (hc : rustIsWhitespace c = false)
    (A B : List Char) :
    trimLeft (A ++ c :: B) = trimLeft A ++ c :: B :=
  dropWhile_append_not c hc A B

theorem trimRight_append_cons (c : Char) (hc : rustIsWhitespace c = false)
    (A B : List Char) :
    trimRight (A ++ c :: B) = A ++ c :: trimRight B := by
  unfold trimRight
  rw [show (A ++ c :: B).reverse = B.reverse ++ c :: A.reverse by simp,
    dropWhile_append_not c hc]
  simp

theorem dropWhile_rw_idem (l : List Char) :
    List.dropWhile rustIsWhitespace (List.dropWhile rustIsWhitespace l) =
      List.dropWhile rustIsWhitespace l := by
  induction l with
  | nil => rfl
  | cons a t ih =>
    by_cases ha : rustIsWhitespace a <;> simp [List.dropWhile_cons, ha, ih]

theorem trimLeft_idem (l : List Char) : trimLeft (trimLeft l) = trimLeft l :=
  dropWhile_rw_idem l

theorem trimRight_idem (l : List Char) : trimRight (trimRight l) = trimRight l := by
  unfold trimRight
  rw [List.reverse_reverse, dropWhile_rw_idem]

theorem trimRight_cons (a : Char) (t : List Char) :
    trimRight (a :: t) =
      if trimRight t = [] then (if rustIsWhitespace a then [] else [a])
      else a :: trimRight t := by
  unfold trimRight
  rw [List.reverse_cons, List.dropWhile_append]
  by_cases h : List.dropWhile rustIsWhitespace t.reverse = []
  · simp [h]
    by_cases ha : rustIsWhitespace a <;> simp [List.dropWhile_cons, ha]
  · simp [h]

theorem trimLeft_trimRight_comm (l : List Char) :
    trimLeft (trimRight l) = trimRight (trimLeft l) := by
  induction l with
  | nil => rfl
  | cons a t ih =>
    rw [trimRight_cons, trimLeft_cons]
    by_cases ha : rustIsWhitespace a <;> by_cases h0 : trimRight t = []
    · rw [if_pos h0, if_pos ha, if_pos ha, ← ih, h0]
    · rw [if_neg h0, if_pos ha, trimLeft_cons, if_pos ha, ih]
    · rw [if_pos h0, if_neg ha, if_neg ha, trimLeft_cons, if_neg ha,
        trimRight_cons, if_pos h0, if_neg ha]
    · rw [if_neg h0, if_neg ha, trimLeft_cons, if_neg ha, trimRight_cons,
        if_neg h0]

theorem trim_trimRight (l : List Char) : trim (trimRight l) = trim l := by
  unfold trim
  rw [trimLeft_trimRight_comm, trimRight_idem]

theorem trim_idem (l : List Char) : trim (trim l) = trim l := by
  unfold trim
  rw [trimLeft_trimRight_comm (trimLeft l), trimRight_idem, trimLeft_idem]

theorem trim_trimLeft (l : List Char) : trim (trimLeft l) = trim l := by
  unfold trim
  rw [trimLeft_idem]

theorem dropWhile_of_head (X : List Char)
    (h : ∀ c ∈ X, rustIsWhitespace c = false) :
    List.dropWhile rustIsWhitespace X = X := by
  cases X with
  | nil => rfl
  | cons a t => simp [List.dropWhile_cons, h a (by simp)]

theorem trimLeft_of_all (K : List Char)
    (h : ∀ c ∈ K, rustIsWhitespace c = false) : trimLeft K = K :=
  dropWhile_of_head K h

theorem trimRight_of_all (K : List Char)
    (h : ∀ c ∈ K, rustIsWhitespace c = false) : trimRight K = K := by
  unfold trimRight
  rw [dropWhile_of_head _ (fun c hc => h c (List.mem_reverse.mp hc)),
    List.reverse_reverse]

theorem trim_of_all (K : List Char)
    (h : ∀ c ∈ K, rustIsWhitespace c = false) : trim K = K := by
  unfold trim
  rw [trimLeft_of_all K h, trimRight_of_all K h]

theorem splitFirst_append (K V : List Char) (c : Char) (hK : c ∉ K) :
    splitFirst c (K ++ c :: V) = some (K, V) := by
  induction K with
  | nil => simp [splitFirst]
  | cons a K' ih =>
    have ha : ¬(a = c) := fun h => hK (h ▸ List.mem_cons_self a K')
    simp [splitFirst, ha, ih (fun h => hK (List.mem_cons_of_mem a h))]

theorem splitOnChar_of_none (c : Char) (X : List Char)
    (h : splitFirst c X = none) : splitOnChar c X = [X] := by
  induction X with
  | nil => rfl
  | cons a t ih =>
    by_cases ha : a = c
    · simp [splitFirst, ha] at h
    · simp only [splitFirst, if_neg ha, Option.map_eq_none'] at h
      simp [splitOnChar, ha, ih h]

theorem splitOnChar_of_some (c : Char) :
    ∀ (X b a : List Char), splitFirst c X = some (b, a) →
      splitOnChar c X = b :: splitOnChar c a := by
  intro X
  induction X with
  | nil => intro b a h; simp [splitFirst] at h
  | cons x t ih =>
    intro b a h
    by_cases hx : x = c
    · simp only [splitFirst, if_pos hx, Option.some.injEq, Prod.mk.injEq] at h
      obtain ⟨hb, ha⟩ := h
      subst hb; subst ha
      simp [splitOnChar, hx]
    · simp only [splitFirst, if_neg hx, Option.map_eq_some'] at h
      obtain ⟨⟨b', a'⟩, hq, hqa⟩ := h
      simp only [Prod.mk.injEq] at hqa
      obtain ⟨hb, ha2⟩ := hqa
      subst hb
      subst ha2
      simp only [splitOnChar, if_neg hx]
      rw [ih b' a' hq]

/-! Characterization of `parse_line` on the main line shapes. -/

theorem trim_keyval (K V : List Char)
    (hK : ∀ c ∈ K, rustIsWhitespace c = false) :
    trim (K ++ '=' :: V) = K ++ '=' :: trimRight V := by
  unfold trim
  rw [trimLeft_append_cons '=' (by decide) K V, trimLeft_of_all K hK,
    trimRight_append_cons '=' (by decide) K V]

theorem keyval_ne_nil (K V : List Char) : K ++ '=' :: V ≠ [] := by
  simp

theorem keyval_head (K V : List Char) (hKh : K.head? ≠ some '#') :
    (K ++ '=' :: V).head? ≠ some '#' := by
  cases K with
  | nil =>
    intro h
    simp only [List.nil_append, List.head?_cons, Option.some.injEq] at h
    exact absurd h (by decide)
  | cons a t => simpa using hKh

theorem parse_line_keyval (K V : List Char) (d : Char) (n : Nat)
    (hK : ∀ c ∈ K, rustIsWhitespace c = false)
    (hKe : '=' ∉ K) (hKh : K.head? ≠ some '#') :
    parse_line (K ++ '=' :: V) d n = parseOptVal K (trim V) d n := by
  have hline := trim_keyval K V hK
  unfold parse_line
  rw [hline, if_neg (keyval_ne_nil K (trimRight V)),
    if_neg (keyval_head K (trimRight V) hKh),
    splitFirst_append K (trimRight V) '=' hKe]
  show parseOptVal (trim K) (trim (trimRight V)) d n = parseOptVal K (trim V) d n
  rw [trim_of_all K hK, trim_trimRight]

theorem parseOptVal_of_valid (K value : List Char) (d : Char) (n : Nat)
    (hd : d.utf8Size = 1) (hK : ∀ c ∈ K, rustIsWhitespace c = false) :
    parseOptVal K value d n =
      match splitFirst d value with
      | some q => some (K, trim q.1, (splitOnChar d q.2).map trim)
      | none => some (K, value, []) := by
  have hany : ¬(K.any rustIsWhitespace = true) := by
    simp only [List.any_eq_true]
    rintro ⟨c, hc, hw⟩
    rw [hK c hc] at hw
    exact Bool.noConfusion hw
  unfold parseOptVal
  rw [if_neg hany]
  cases hsf : splitFirst d value with
  | none => rfl
  | some q => simp [hd]

/-! Totality of `parse_line` for single-byte delimiters, and the
well-formedness invariant of emitted option names. -/

theorem parseOptVal_isSome (o v : List Char) (d : Char) (n : Nat)
    (hd : d.utf8Size = 1) : (parseOptVal o v d n).isSome = true := by
  unfold parseOptVal
  split
  · rfl
  · split <;> simp_all

theorem parse_line_isSome (l : List Char) (d : Char) (n : Nat)
    (hd : d.utf8Size = 1) : (parse_line l d n).isSome = true := by
  unfold parse_line
  split
  · rfl
  · split
    · rfl
    · split
      · exact parseOptVal_isSome _ _ d n hd
      · exact parseOptVal_isSome _ _ d n hd

theorem natReprCore_not_ws :
    ∀ (fuel n : Nat) (acc : List Char),
      (∀ c ∈ acc, rustIsWhitespace c = false) →
      ∀ c ∈ natReprCore fuel n acc, rustIsWhitespace c = false := by
  intro fuel
  induction fuel with
  | zero => intro n acc h; exact h
  | succ f ih =>
    intro n acc h
    have hdig : rustIsWhitespace (Nat.digitChar (n % 10)) = false := by
      have h10 : n % 10 < 10 := Nat.mod_lt _ (by decide)
      have hall : ∀ m, m < 10 → rustIsWhitespace (Nat.digitChar m) = false := by
        decide
      exact hall _ h10
    have hacc : ∀ c ∈ Nat.digitChar (n % 10) :: acc, rustIsWhitespace c = false := by
      intro c hc
      rcases List.mem_cons.mp hc with h1 | h2
      · rw [h1]; exact hdig
      · exact h c h2
    unfold natReprCore
    by_cases hn : n < 10
    · rw [if_pos hn]; exact hacc
    · rw [if_neg hn]; exact ih (n / 10) _ hacc

theorem invalidOption_ne_nil (n : Nat) : invalidOption n ≠ [] := by
  unfold invalidOption
  intro h
  exact absurd (List.append_eq_nil.mp h).1 (by decide)

theorem invalidOption_not_ws (n : Nat) :
    ∀ c ∈ invalidOption n, rustIsWhitespace c = false := by
  intro c hc
  unfold invalidOption at hc
  rcases List.mem_append.mp hc with h | h
  · have hfix : ∀ x ∈ "InvalidOption_on_Line".toList, rustIsWhitespace x = false := by
      decide
    exact hfix c h
  · exact natReprCore_not_ws (n + 1) n []
      (fun c hc => absurd hc (List.not_mem_nil c)) c h

theorem invalidOption_wf (n : Nat) : optionWf (invalidOption n) = true := by
  unfold optionWf
  rw [Bool.and_eq_true]
  constructor
  · rw [Bool.not_eq_true']
    exact List.isEmpty_eq_false.mpr (invalidOption_ne_nil n)
  · rw [List.all_eq_true]
    intro c hc
    rw [invalidOption_not_ws n c hc]
    rfl

theorem optionWf_of_not_ws (o : List Char) (hne : o ≠ [])
    (h : ∀ c ∈ o, rustIsWhitespace c = false) : optionWf o = true := by
  unfold optionWf
  rw [Bool.and_eq_true]
  constructor
  · rw [Bool.not_eq_true']
    exact List.isEmpty_eq_false.mpr hne
  · rw [List.all_eq_true]
    intro c hc
    rw [h c hc]
    rfl

theorem parseOptVal_option_wf (o v : List Char) (d : Char) (n : Nat)
    (t : List Char × List Char × List (List Char))
    (h : parseOptVal o v d n = some t) (hne : t.1 ≠ []) :
    optionWf t.1 = true := by
  unfold parseOptVal at h
  split at h
  · injection h with h
    rw [← h]
    exact invalidOption_wf n
  · rename_i hany
    have hall : ∀ c ∈ o, rustIsWhitespace c = false := by
      intro c hc
      by_contra hcc
      exact hany (List.any_eq_true.mpr ⟨c, hc, Bool.not_eq_false _ |>.mp hcc⟩)
    split at h
    · split at h
      · injection h with h
        rw [← h] at hne ⊢
        exact optionWf_of_not_ws o hne hall
      · exact Option.noConfusion h
    · injection h with h
      rw [← h] at hne ⊢
      exact optionWf_of_not_ws o hne hall

theorem parse_line_option_wf (l : List Char) (d : Char) (n : Nat)
    (t : List Char × List Char × List (List Char))
    (h : parse_line l d n = some t) (hne : t.1 ≠ []) :
    optionWf t.1 = true := by
  unfold parse_line at h
  split at h
  · injection h with h
    rw [← h] at hne
    exact absurd rfl hne
  · split at h
    · injection h with h
      rw [← h] at hne
      exact absurd rfl hne
    · split at h
      · exact parseOptVal_option_wf _ _ d n t h hne
      · exact parseOptVal_option_wf _ _ d n t h hne

/-! Behaviour of the file aggregator. -/

theorem processLines_ok (d : Char) (lines : List (List Char)) :
    ∀ (k : Nat) (recs : List OptionProperties),
      processLines d (lines.map Except.ok) k = some (Except.ok recs) →
      recs = recordsSpecFrom d k lines := by
  induction lines with
  | nil =>
    intro k recs h
    simp only [List.map_nil, processLines] at h
    injection h with h
    injection h with h
    rw [← h]
    rfl
  | cons l rest ih =>
    intro k recs h
    simp only [List.map_cons, processLines] at h
    cases hp : parse_line l d k with
    | none => rw [hp] at h; exact Option.noConfusion h
    | some t =>
      rw [hp] at h
      obtain ⟨o, pv, av⟩ := t
      cases hr : processLines d (rest.map Except.ok) (k + 1) with
      | none => rw [hr] at h; exact Option.noConfusion h
      | some res =>
        rw [hr] at h
        cases res with
        | error e =>
          injection h with h
          exact Except.noConfusion h
        | ok recs' =>
          injection h with h
          injection h with h
          have hrec := ih (k + 1) recs' hr
          unfold recordsSpecFrom
          rw [List.enumFrom_cons, List.filterMap_cons]
          simp only [hp, Option.some_bind]
          by_cases ho : o = []
          · rw [if_pos ho] at h
            rw [if_pos ho]
            rw [← h, hrec]
            rfl
          · rw [if_neg ho] at h
            rw [if_neg ho]
            rw [← h, hrec]
            rfl

theorem processLines_error (d : Char) (e : IOError)
    (post : List (Except IOError (List Char))) (hd : d.utf8Size = 1) :
    ∀ (pre : List (List Char)) (k : Nat),
      processLines d (pre.map Except.ok ++ Except.error e :: post) k =
        some (Except.error e) := by
  intro pre
  induction pre with
  | nil => intro k; rfl
  | cons l rest ih =>
    intro k
    simp only [List.map_cons, List.cons_append, processLines]
    have hs := parse_line_isSome l d k hd
    cases hp : parse_line l d k with
    | none => rw [hp] at hs; exact Bool.noConfusion hs
    | some t =>
      obtain ⟨o, pv, av⟩ := t
      simp only [List.append_eq]
      rw [ih (k + 1)]

theorem processLines_wf (d : Char) (input : List (Except IOError (List Char))) :
    ∀ (k : Nat) (recs : List OptionProperties) (r : OptionProperties),
      processLines d input k = some (Except.ok recs) → r ∈ recs →
      optionWf r.option = true := by
  induction input with
  | nil =>
    intro k recs r h hr
    simp only [processLines] at h
    injection h with h
    injection h with h
    rw [← h] at hr
    exact absurd hr (List.not_mem_nil r)
  | cons x rest ih =>
    intro k recs r h hr
    cases x with
    | error e =>
      simp only [processLines] at h
      injection h with h
      exact Except.noConfusion h
    | ok l =>
      simp only [processLines] at h
      cases hp : parse_line l d k with
      | none => rw [hp] at h; exact Option.noConfusion h
      | some t =>
        rw [hp] at h
        obtain ⟨o, pv, av⟩ := t
        cases hrec : processLines d rest (k + 1) with
        | none => rw [hrec] at h; exact Option.noConfusion h
        | some res =>
          rw [hrec] at h
          cases res with
          | error e =>
            injection h with h
            exact Except.noConfusion h
          | ok recs' =>
            injection h with h
            injection h with h
            by_cases ho : o = []
            · rw [if_pos ho] at h
              rw [← h] at hr
              exact ih (k + 1) recs' r hrec hr
            · rw [if_neg ho] at h
              rw [← h] at hr
              rcases List.mem_cons.mp hr with h1 | h2
              · rw [h1]
                exact parse_line_option_wf l d k (o, pv, av) hp ho
              · exact ih (k + 1) recs' r hrec h2

theorem parse_line_empty_key (l b a : List Char) (d : Char) (n : Nat)
    (hd : d.utf8Size = 1) (h0 : trim l ≠ []) (h1 : (trim l).head? ≠ some '#')
    (hsf : splitFirst '=' (trim l) = some (b, a)) (hb : trim b = []) :
    (parse_line l d n).map (fun t => t.1) = some [] := by
  unfold parse_line
  rw [if_neg h0, if_neg h1, hsf]
  show (parseOptVal (trim b) (trim a) d n).map (fun t => t.1) = some []
  rw [hb, parseOptVal_of_valid [] (trim a) d n hd (by intro c hc; exact absurd hc (List.not_mem_nil c))]
  cases hv : splitFirst d (trim a) with
  | none => rfl
  | some q => rfl

/-! Claim theorems. -/

/-- C1 (amended): for every line whose trimmed text is non-empty and does
not start with `#`, and whose key portion (trimmed text before the first
`=`, or the whole trimmed line when there is no `=`) contains a whitespace
character, `parse_line` with line number `n` returns the triple
`(invalidOption n, "", [])` — empty primary value and no attributes — for
every choice of attribute delimiter character.  (The original claim, which
omits the non-blank/non-comment condition, fails on comment lines; see the
counterexample.) -/
theorem claim_C1_invalid_key_sentinel (l : List Char) (d : Char) (n : Nat)
    (h0 : trim l ≠ []) (h1 : (trim l).head? ≠ some '#')
    (hw : (keyPortion l).any rustIsWhitespace = true) :
    parse_line l d n = some (invalidOption n, [], []) := by
  unfold parse_line
  rw [if_neg h0, if_neg h1]
  unfold keyPortion at hw
  cases hsf : splitFirst '=' (trim l) with
  | some q =>
    rw [hsf] at hw
    show parseOptVal (trim q.1) (trim q.2) d n = some (invalidOption n, [], [])
    unfold parseOptVal
    rw [if_pos hw]
  | none =>
    rw [hsf] at hw
    show parseOptVal (trim l) [] d n = some (invalidOption n, [], [])
    unfold parseOptVal
    rw [if_pos hw]

/-- C1 counterexample: the line `"# a b"` has no `=`, so its key portion is
the whole trimmed line `"# a b"`, which contains whitespace; yet
`parse_line` returns the skip sentinel, not `InvalidOption_on_Line7`,
because the comment check fires first. -/
theorem claim_C1_counterexample :
    parse_line "# a b".toList ',' 7 = some ([], [], []) ∧
      some (([] : List Char), ([] : List Char), ([] : List (List Char))) ≠
        some (invalidOption 7, ([] : List Char), ([] : List (List Char))) := by
  constructor
  · decide
  · decide

/-- C1 witness: the repository's own test line, with a multi-byte delimiter
to exercise delimiter-independence. -/
theorem claim_C1_witness :
    parse_line "Option  /home/foo".toList '€' 28 =
      some ("InvalidOption_on_Line28".toList, [], []) :=
  (claim_C1_invalid_key_sentinel "Option  /home/foo".toList '€' 28
    (by decide) (by decide) (by decide)).trans (by decide)

/-- C2 (amended): for every line of the form `K=V` whose whitespace-free
key `K` contains no `=`, does not begin with `#` (otherwise the line is a
comment and skipped), and for every single-byte attribute delimiter
(multi-byte delimiters panic, see C7): the result's primary value is the
trimmed head of the delimiter-split of `trim V`, and the attributes are the
remaining tokens of that split, each trimmed, in left-to-right order,
preserving empty tokens from adjacent delimiters; when `V` contains no
delimiter the split is `[trim V]`, giving primary `trim V` and no
attributes. -/
theorem claim_C2_value_split (K V : List Char) (d : Char) (n : Nat)
    (hd : d.utf8Size = 1)
    (hK : ∀ c ∈ K, rustIsWhitespace c = false)
    (hKe : '=' ∉ K) (hKh : K.head? ≠ some '#') :
    parse_line (K ++ '=' :: V) d n =
      some (K, trim ((splitOnChar d (trim V)).headI),
        ((splitOnChar d (trim V)).tail).map trim) := by
  rw [parse_line_keyval K V d n hK hKe hKh,
    parseOptVal_of_valid K (trim V) d n hd hK]
  cases hsf : splitFirst d (trim V) with
  | none =>
    rw [splitOnChar_of_none d (trim V) hsf]
    simp [trim_idem]
  | some q =>
    obtain ⟨b, a⟩ := q
    rw [splitOnChar_of_some d (trim V) b a hsf]
    simp [hd]

/-- C2 counterexample: `"#a=b"` is a line of the form `K=V` with the
whitespace-free key `"#a"`, but `parse_line` skips it as a comment instead
of returning `("#a", "b", [])`. -/
theorem claim_C2_counterexample :
    parse_line "#a=b".toList ',' 1 = some ([], [], []) ∧
      parse_line "#a=b".toList ',' 1 ≠
        some ("#a".toList, "b".toList, []) := by
  constructor
  · decide
  · decide

/-- C2 witness: a key with a three-token value tail, including surrounding
spaces that are trimmed from each token. -/
theorem claim_C2_witness :
    parse_line "K=a , b,c".toList ',' 2 =
      some ("K".toList, "a".toList, ["b".toList, "c".toList]) :=
  (claim_C2_value_split "K".toList "a , b,c".toList ',' 2
    (by decide) (by decide) (by decide) (by decide)).trans (by decide)

/-- C3: for every line that is empty after trimming, or whose first
character after trimming is `#`, `parse_line` returns the skip sentinel
`("", "", [])`, for every attribute delimiter and every line number. -/
theorem claim_C3_skip_blank_comment (l : List Char) (d : Char) (n : Nat)
    (h : trim l = [] ∨ (trim l).head? = some '#') :
    parse_line l d n = some ([], [], []) := by
  unfold parse_line
  rcases h with h | h
  · rw [if_pos h]
  · by_cases h0 : trim l = []
    · rw [if_pos h0]
    · rw [if_neg h0, if_pos h]

/-- C3 witness: a comment line with leading whitespace, checked with a
multi-byte delimiter and a nonzero line number. -/
theorem claim_C3_witness :
    parse_line "   # note".toList '€' 42 = some ([], [], []) :=
  claim_C3_skip_blank_comment "   # note".toList '€' 42 (Or.inr (by decide))

/-- C4 (amended): the whitespace-validity check examines only the trimmed
text before the line's first `=`.  Part one: for every line built from a
whitespace-free non-empty key `K` (no `=`, not starting with `#`) and a
value containing a later stray `=`, the returned option is `K` itself — the
line is not flagged invalid and the stray `=` stays in the value text
(single-byte delimiter assumed; multi-byte delimiters panic, see C7).  Part
two: for every non-comment line whose trimmed text before the first `=`
contains whitespace, the line is flagged invalid regardless of what follows
the first `=`, for every delimiter.  (The original claim, with no
non-comment condition in part two, fails on comment lines; see the
counterexample.) -/
theorem claim_C4_first_equals_check :
    (∀ (K V1 V2 : List Char) (d : Char) (n : Nat),
        d.utf8Size = 1 → (∀ c ∈ K, rustIsWhitespace c = false) → K ≠ [] →
        '=' ∉ K → K.head? ≠ some '#' →
        (parse_line (K ++ '=' :: (V1 ++ '=' :: V2)) d n).map (fun t => t.1) =
          some K) ∧
    (∀ (P rest : List Char) (d : Char) (n : Nat),
        '=' ∉ P → (trimLeft P).head? ≠ some '#' →
        (trim P).any rustIsWhitespace = true →
        parse_line (P ++ '=' :: rest) d n = some (invalidOption n, [], [])) := by
  constructor
  · intro K V1 V2 d n hd hK _hKne hKe hKh
    rw [parse_line_keyval K (V1 ++ '=' :: V2) d n hK hKe hKh,
      parseOptVal_of_valid K _ d n hd hK]
    cases hsf : splitFirst d (trim (V1 ++ '=' :: V2)) with
    | none => rfl
    | some q => simp [hd]
  · intro P rest d n hPe hPh hw
    have hsplit : trim (P ++ '=' :: rest) = trimLeft P ++ '=' :: trimRight rest := by
      unfold trim
      rw [trimLeft_append_cons '=' (by decide) P rest,
        trimRight_append_cons '=' (by decide) (trimLeft P) rest]
    have hmem : '=' ∉ trimLeft P :=
      fun hm => hPe (List.dropWhile_subset _ hm)
    unfold parse_line
    rw [hsplit, if_neg (keyval_ne_nil _ _), if_neg (keyval_head _ _ hPh),
      splitFirst_append (trimLeft P) (trimRight rest) '=' hmem]
    show parseOptVal (trim (trimLeft P)) (trim (trimRight rest)) d n =
      some (invalidOption n, [], [])
    rw [trim_trimLeft]
    unfold parseOptVal
    rw [if_pos hw]

/-- C4 counterexample: the line `"# x=y"` has the space-containing text
`"# x"` before its first `=`, but it is skipped as a comment, not flagged
invalid. -/
theorem claim_C4_counterexample :
    parse_line "# x=y".toList ',' 2 = some ([], [], []) ∧
      parse_line "# x=y".toList ',' 2 ≠ some (invalidOption 2, [], []) := by
  constructor
  · decide
  · decide

/-- C4 witness: a stray `=` in the value leaves the option intact, and the
repository's own invalid-line test case is flagged. -/
theorem claim_C4_witness :
    (parse_line "key=a=b".toList ',' 1).map (fun t => t.1) =
        some "key".toList ∧
      parse_line "Option  /home/foo = value".toList ',' 9 =
        some ("InvalidOption_on_Line9".toList, [], []) := by
  constructor
  · exact claim_C4_first_equals_check.1 "key".toList "a".toList "b".toList
      ',' 1 (by decide) (by decide) (by decide) (by decide) (by decide)
  · exact (claim_C4_first_equals_check.2 "Option  /home/foo ".toList
      " value".toList ',' 9 (by decide) (by decide) (by decide)).trans
      (by decide)

/-- C5: whenever `parse_file` succeeds on a stream of successfully read
lines, its output is exactly the spec-side aggregation `recordsSpec`: the
line parser is invoked with 1-based line numbers counting every line
(including blank and comment lines), and the output holds one record per
line with a non-empty option, in file order. -/
theorem claim_C5_file_aggregation (d : Char) (lines : List (List Char))
    (recs : List OptionProperties)
    (h : parse_file (Except.ok (lines.map Except.ok)) d =
      some (Except.ok recs)) :
    recs = recordsSpec d lines :=
  processLines_ok d lines 1 recs h

/-- C5 witness: the spec §8 concrete scenario — four lines, delimiter `,`,
producing the four expected records in order, the fourth with the
line-number-4 sentinel. -/
theorem claim_C5_witness :
    recordsSpec ','
      ["option = Blue , light , shiny".toList, "max_users = 30".toList,
        "DelayOff".toList, "Option  /home/foo".toList] =
      [OptionProperties.new "option".toList "Blue".toList
          ["light".toList, "shiny".toList],
        OptionProperties.new "max_users".toList "30".toList [],
        OptionProperties.new "DelayOff".toList [] [],
        OptionProperties.new "InvalidOption_on_Line4".toList [] []] :=
  (claim_C5_file_aggregation ','
    ["option = Blue , light , shiny".toList, "max_users = 30".toList,
      "DelayOff".toList, "Option  /home/foo".toList]
    [OptionProperties.new "option".toList "Blue".toList
        ["light".toList, "shiny".toList],
      OptionProperties.new "max_users".toList "30".toList [],
      OptionProperties.new "DelayOff".toList [] [],
      OptionProperties.new "InvalidOption_on_Line4".toList [] []]
    (by rfl)).symm

/-- C6 (amended): for every single-byte attribute delimiter, `parse_file`
is all-or-nothing: if opening the file fails the same error is returned,
and if reading any line fails mid-stream the error is returned and the
records parsed so far are discarded — never a partial list.  (The original
claim, with no restriction on the delimiter, fails: with a multi-byte
delimiter the C7 panic on an earlier line preempts the read error, and no
I/O error is returned; see the counterexample.) -/
theorem claim_C6_all_or_nothing (d : Char) (e : IOError)
    (pre : List (List Char)) (post : List (Except IOError (List Char)))
    (hd : d.utf8Size = 1) :
    parse_file (Except.error e) d = some (Except.error e) ∧
      parse_file (Except.ok (pre.map Except.ok ++ Except.error e :: post)) d =
        some (Except.error e) :=
  ⟨rfl, processLines_error d e post hd pre 1⟩

/-- C6 witness: a failed open returns error 3, and a read failure on line 2
(after one successfully parsed line) returns error 3, not a partial list. -/
theorem claim_C6_witness :
    parse_file (Except.error 3) ',' = some (Except.error 3) ∧
      parse_file (Except.ok [Except.ok "a = b".toList, Except.error 3]) ',' =
        some (Except.error 3) :=
  claim_C6_all_or_nothing ',' 3 ["a = b".toList] [] (by decide)

/-- C6 counterexample: with the multi-byte delimiter `'€'`, the panic on
line 1 (value `"€b"` contains the delimiter, see C7) preempts the read
error on line 2, so `parse_file` panics (`none`) instead of returning the
I/O error as the original claim demands. -/
theorem claim_C6_counterexample :
    parse_file (Except.ok [Except.ok "a=€b".toList, Except.error 3]) '€' =
        none ∧
      (none : Option (Except IOError (List OptionProperties))) ≠
        some (Except.error 3) := by
  constructor
  · rfl
  · simp

/-- C7 (code bug): the claim says `parse_line` is total for every delimiter
character including multi-byte ones, but the source slices
`value[i.unwrap() + 1..]` with a byte index one past the start of the first
delimiter occurrence; for the three-byte delimiter `'€'` in the value of
`"a=€b€c"` that index is not a character boundary and the Rust code panics
(modelled as `none`). -/
theorem claim_C7_panic_on_multibyte_delimiter :
    parse_line "a=€b€c".toList '€' 1 = none := by decide

/-- C8: every record in a successful `parse_file` output has a well-formed
option name: non-empty and containing no whitespace characters (a
whitespace-containing key yields the synthesized sentinel name rather than
being omitted). -/
theorem claim_C8_option_invariant (d : Char)
    (input : Except IOError (List (Except IOError (List Char))))
    (recs : List OptionProperties) (r : OptionProperties)
    (h : parse_file input d = some (Except.ok recs)) (hr : r ∈ recs) :
    optionWf r.option = true := by
  cases input with
  | error e =>
    simp only [parse_file] at h
    injection h with h
    exact Except.noConfusion h
  | ok ls => exact processLines_wf d ls 1 recs r h hr

/-- C8 witness: the single record parsed from `"max_users = 30"` has the
well-formed option name `"max_users"`. -/
theorem claim_C8_witness : optionWf "max_users".toList = true :=
  claim_C8_option_invariant ','
    (Except.ok [Except.ok "max_users = 30".toList])
    [OptionProperties.new "max_users".toList "30".toList []]
    (OptionProperties.new "max_users".toList "30".toList [])
    (by rfl) (by simp)

/-- C9: parsing is deterministic — `parse_line` and `parse_file` are pure
functions of their arguments, so two parses of the same input (same line,
line number, delimiter, and same file contents) are structurally equal. -/
theorem claim_C9_deterministic (l : List Char) (d : Char) (n : Nat)
    (input : Except IOError (List (Except IOError (List Char)))) :
    parse_line l d n = parse_line l d n ∧
      parse_file input d = parse_file input d :=
  ⟨rfl, rfl⟩

/-- C10 (amended): for every single-byte attribute delimiter and every line
whose trimmed text is non-empty, does not start with `#`, and whose portion
before the first `=` trims to the empty string, `parse_line` returns an
empty option (the value is still parsed), and `parse_file` emits no record
for such a line — it is silently skipped.  (The original claim, with no
restriction on the delimiter, fails: with a multi-byte delimiter occurring
in the value the C7 panic fires instead of an empty option being returned;
see the counterexample.) -/
theorem claim_C10_empty_key_skipped (l b a : List Char) (d : Char) (n : Nat)
    (hd : d.utf8Size = 1) (h0 : trim l ≠ []) (h1 : (trim l).head? ≠ some '#')
    (hsf : splitFirst '=' (trim l) = some (b, a)) (hb : trim b = []) :
    (parse_line l d n).map (fun t => t.1) = some [] ∧
      parse_file (Except.ok [Except.ok l]) d = some (Except.ok []) := by
  refine ⟨parse_line_empty_key l b a d n hd h0 h1 hsf hb, ?_⟩
  have h2 := parse_line_empty_key l b a d 1 hd h0 h1 hsf hb
  cases hp : parse_line l d 1 with
  | none => rw [hp] at h2; exact Option.noConfusion h2
  | some t =>
    rw [hp] at h2
    obtain ⟨o, pv, av⟩ := t
    simp only [Option.map_some'] at h2
    injection h2 with h2
    show processLines d [Except.ok l] 1 = some (Except.ok [])
    simp [processLines, hp, h2]

/-- C10 witness: the line `"= value"` parses to an empty option and
produces no record. -/
theorem claim_C10_witness :
    (parse_line "= value".toList ',' 5).map (fun t => t.1) = some [] ∧
      parse_file (Except.ok [Except.ok "= value".toList]) ',' =
        some (Except.ok []) :=
  claim_C10_empty_key_skipped "= value".toList [] " value".toList ',' 5
    (by decide) (by decide) (by decide) (by decide) (by decide)

/-- C10 counterexample: the line `"=€a€b"` satisfies the original claim's
conditions (trimmed text non-empty, not a comment, empty text before the
first `=`), but with the multi-byte delimiter `'€'` in the value the code
panics (`none`, see C7) instead of returning an empty option. -/
theorem claim_C10_counterexample :
    parse_line "=€a€b".toList '€' 1 = none ∧
      (parse_line "=€a€b".toList '€' 1).map (fun t => t.1) ≠ some [] := by
  constructor
  · decide
  · decide
